import Mathlib

/-!
Verification development for the newsletter generator in `newsletter.py`
(`NewsletterGenerator`): a shallow embedding of its field extractor,
topic classifier, template renderer and run orchestrator, together with
theorems about the behaviours stated in the specification.

Strings are modelled as `List Char` (Python `str` is a sequence of code
points, so this is faithful for the operations used by the program:
indexing, slicing, containment, splitting and stripping).
-/

set_option maxHeartbeats 4000000
set_option maxRecDepth 100000

namespace HFNews

/-- Python whitespace: the character class matched by the regex class for
whitespace on `str` patterns, which is also the default strip set of
`str.strip`. -/
def isPyWs (c : Char) : Bool :=
  c == ' ' || c == '\t' || c == '\n' || c == '\r' || c == '\x0b' || c == '\x0c' ||
  c == '\x1c' || c == '\x1d' || c == '\x1e' || c == '\x1f' || c == '\x85' || c == '\xa0' ||
  c == ' ' || (decide (' ' ≤ c) && decide (c ≤ ' ')) ||
  c == ' ' || c == ' ' || c == ' ' || c == ' ' || c == '　'

/-- Python `str.strip()`: drop leading and trailing whitespace. -/
def pyStrip (l : List Char) : List Char :=
  ((l.dropWhile isPyWs).reverse.dropWhile isPyWs).reverse

/-- Python `in` on strings: substring containment. -/
def containsSub (pat : List Char) : List Char → Bool
  | [] => pat.isEmpty
  | c :: rest => pat.isPrefixOf (c :: rest) || containsSub pat rest

/-- Python `s.split(pat, 1)[1]`: the text after the first occurrence of
`pat`, or `none` when `pat` does not occur (in which case Python's split
yields a single piece and the program never takes this branch). -/
def splitOnceAfter (pat : List Char) : List Char → Option (List Char)
  | [] => if pat.isEmpty then some [] else none
  | c :: rest =>
      if pat.isPrefixOf (c :: rest) then some ((c :: rest).drop pat.length)
      else splitOnceAfter pat rest

/-! ## Backtracking combinators

The three `re` patterns of `extract_paper_info` are embedded as
specialised backtracking matchers.  Each combinator passes the consumed
characters (the capture) and the remaining input to a continuation and
mirrors the backtracking order of Python's regex engine: greedy pieces
try the longest consumption first, lazy pieces the shortest. -/

/-- Greedy `p*`: consume as many `p`-characters as possible, backtracking
to shorter runs when the continuation fails. -/
def starCap {α : Type} (p : Char → Bool) (s : List Char)
    (k : List Char → List Char → Option α) : Option α :=
  match s with
  | [] => k [] []
  | c :: rest =>
      if p c then (starCap p rest (fun cap r => k (c :: cap) r)) <|> k [] (c :: rest)
      else k [] (c :: rest)

/-- Greedy `p+`: one mandatory character, then a greedy star. -/
def plusCapGreedy {α : Type} (p : Char → Bool) (s : List Char)
    (k : List Char → List Char → Option α) : Option α :=
  match s with
  | [] => none
  | c :: rest => if p c then starCap p rest (fun cap r => k (c :: cap) r) else none

/-- Lazy `p+?`: one character first, growing the match only on failure. -/
def lazyPlusCap {α : Type} (p : Char → Bool) (s : List Char)
    (k : List Char → List Char → Option α) : Option α :=
  match s with
  | [] => none
  | c :: rest =>
      if p c then (k [c] rest) <|> lazyPlusCap p rest (fun cap r => k (c :: cap) r)
      else none

/-- Zero-width test for whitespace-star followed by `f`: true when some
(possibly empty) whitespace prefix can be consumed so that `f` accepts
the remainder. -/
def wsStarThen (f : List Char → Bool) : List Char → Bool
  | [] => f []
  | c :: rest => (isPyWs c && wsStarThen f rest) || f (c :: rest)

/-- Either of the two colon characters accepted by the patterns. -/
def isColon (c : Char) : Bool := c == ':' || c == '：'

/-! ## The three regex patterns of `extract_paper_info` -/

/-- Tail of the title pattern's lookahead: a newline, whitespace, then
the summary label and a colon. -/
def titleLookNl : List Char → Bool
  | '\n' :: t =>
      wsStarThen
        (fun u =>
          match u with
          | '摘' :: '要' :: c :: _ => isColon c
          | _ => false) t
  | _ => false

/-- The title pattern's lookahead: whitespace, a newline, whitespace and
the summary label with a colon -- or the end of the string. -/
def titleLookahead (s : List Char) : Bool :=
  wsStarThen titleLookNl s || s.isEmpty

/-- After the title label, colon and whitespace: a greedy non-newline
capture whose remainder passes the title lookahead. -/
def titleTail (r1 : List Char) : Option (List Char) :=
  plusCapGreedy (fun ch => ch != '\n') r1 (fun cap r2 =>
    if titleLookahead r2 then some cap else none)

/-- The title pattern anchored at a position: the title label, a colon,
whitespace, then a greedy non-newline capture whose remainder passes the
lookahead. -/
def titleMatchAt (s : List Char) : Option (List Char) :=
  match s with
  | a :: b :: c :: rest =>
      if a = '标' ∧ b = '题' ∧ isColon c = true then
        starCap isPyWs rest (fun _ r1 => titleTail r1)
      else none
  | _ => none

/-- `re.search` for the title pattern: leftmost position whose anchored
match succeeds. -/
def reSearchTitle : List Char → Option (List Char)
  | [] => titleMatchAt []
  | c :: rest => titleMatchAt (c :: rest) <|> reSearchTitle rest

/-- One-or-more characters other than a fullwidth colon and newline,
followed by a colon: the label portion of the summary pattern's
lookahead, after its leading whitespace. -/
def colonAfter : List Char → Bool
  | [] => false
  | b :: rest => isColon b || (b != '\n' && b != '：' && colonAfter rest)

/-- The label alternative inside the summary pattern's lookahead. -/
def plusThenColon : List Char → Bool
  | [] => false
  | b :: rest => (b != '\n' && b != '：') && colonAfter rest

/-- The newline-label alternative of the summary pattern's lookahead: a
newline, whitespace, then a `label:` shape. -/
def sumLookLabel : List Char → Bool
  | '\n' :: t2 => wsStarThen plusThenColon t2
  | _ => false

/-- The summary pattern's lookahead: whitespace, then either a newline
followed by whitespace and a `label:` shape, or the end of the string. -/
def summaryLook (s : List Char) : Bool :=
  wsStarThen (fun t => sumLookLabel t || t.isEmpty) s

/-- After the summary label, colon and whitespace: a non-newline
character followed by a lazy any-character run (the pattern is compiled
with DOTALL) whose remainder passes the summary lookahead. -/
def sumTail (r1 : List Char) : Option (List Char) :=
  match r1 with
  | [] => none
  | d :: r2 =>
      if d != '\n' then
        lazyPlusCap (fun _ => true) r2 (fun cap r3 =>
          if summaryLook r3 then some (d :: cap) else none)
      else none

/-- The summary pattern anchored at a position. -/
def summaryMatchAt (s : List Char) : Option (List Char) :=
  match s with
  | a :: b :: c :: rest =>
      if a = '摘' ∧ b = '要' ∧ isColon c = true then
        starCap isPyWs rest (fun _ r1 => sumTail r1)
      else none
  | _ => none

/-- `re.search` for the summary pattern. -/
def reSearchSummary : List Char → Option (List Char)
  | [] => summaryMatchAt []
  | c :: rest => summaryMatchAt (c :: rest) <|> reSearchSummary rest

/-- Tail test of the fallback title pattern: whitespace, then the summary
label and a colon. -/
def fallbackTail : List Char → Bool :=
  wsStarThen
    (fun u =>
      match u with
      | '摘' :: '要' :: c :: _ => isColon c
      | _ => false)

/-- The fallback title pattern anchored at a line start: a greedy
non-newline capture, a newline, whitespace, then the summary label and a
colon. -/
def fallbackMatchAt (s : List Char) : Option (List Char) :=
  plusCapGreedy (fun ch => ch != '\n') s (fun cap r =>
    match r with
    | '\n' :: r2 => if fallbackTail r2 then some cap else none
    | _ => none)

/-- Scan for line starts (positions right after a newline) for the
MULTILINE anchor of the fallback pattern. -/
def searchFromNewlines : List Char → Option (List Char)
  | [] => none
  | '\n' :: rest => fallbackMatchAt rest <|> searchFromNewlines rest
  | _ :: rest => searchFromNewlines rest

/-- `re.search` with MULTILINE anchoring for the fallback title pattern:
position 0 first, then every position following a newline, left to
right. -/
def reSearchFallback (s : List Char) : Option (List Char) :=
  fallbackMatchAt s <|> searchFromNewlines s

/-! ## Data model -/

/-- One record of the input JSON array, restricted to the fields the
program reads (`title`, `url`, `arxiv_url`, `translation` and the nested
`paper.code`); each `get` default of the source is the empty string, so
absent fields are modelled as empty strings. -/
structure PaperData where
  title : List Char
  url : List Char
  arxiv_url : List Char
  translation : List Char
  code : List Char
deriving DecidableEq

/-- The dictionary produced by `extract_paper_info`. -/
structure ExtractedPaper where
  title : List Char
  original_title : List Char
  summary : List Char
  paper_url : List Char
  arxiv_url : List Char
  code_url : List Char
deriving DecidableEq

/-- The literal fullwidth summary marker used by the source's literal
fallback (`'摘要：' in translation` and `translation.split('摘要：', 1)`).
Note it is the fullwidth colon only, unlike the regex patterns. -/
def fwMarker : List Char := ("摘要：").data

/-- The halfwidth-colon variant of the summary marker, used to state that
a text contains no embedded summary label. -/
def hwMarker : List Char := ("摘要:").data

/-- `NewsletterGenerator.extract_paper_info`: regex extraction of title
and summary from the translation blob, with the fallback title pattern,
the raw-title fallback, and the literal-marker summary fallback. -/
def extract_paper_info (p : PaperData) : ExtractedPaper :=
  let translation := p.translation
  let titleMatch0 := reSearchTitle translation
  let summaryMatch := reSearchSummary translation
  let titleMatch :=
    match titleMatch0 with
    | none => reSearchFallback translation
    | some m => some m
  let title := pyStrip (titleMatch.getD p.title)
  let summary0 := pyStrip (summaryMatch.getD [])
  let summary :=
    if summary0.isEmpty && containsSub fwMarker translation then
      pyStrip ((splitOnceAfter fwMarker translation).getD [])
    else summary0
  { title := title
    original_title := p.title
    summary := summary
    paper_url := p.url
    arxiv_url := p.arxiv_url
    code_url := p.code }

/-! ## Topic classifier -/

/-- The fixed keyword list of `get_hot_topics`. -/
def topicKeywords : List (List Char) :=
  [("LLM").data, ("Vision").data, ("Audio").data, ("MultiModal").data, ("NLP").data,
   ("RL").data, ("Transformer").data, ("GPT").data, ("AIGC").data, ("Diffusion").data]

/-- Python `str.lower()` on the characters the program compares (the
keywords are ASCII; non-ASCII characters are unchanged). -/
def lowerL (l : List Char) : List Char := l.map Char.toLower

/-- The per-paper text scanned for keywords:
`paper.get('title','').lower() + ' ' + paper.get('summary','').lower()`. -/
def paperContent (paper : ExtractedPaper) : List Char :=
  lowerL paper.title ++ [' '] ++ lowerL paper.summary

/-- The inner-loop body of `get_hot_topics`: record `kw` when it occurs
case-insensitively in the paper's content and is not yet recorded. -/
def topicStep (paper : ExtractedPaper) (ts : List (List Char)) (kw : List Char) :
    List (List Char) :=
  if containsSub (lowerL kw) (paperContent paper) && !(ts.contains kw) then ts ++ [kw]
  else ts

/-- One outer-loop iteration of `get_hot_topics`: scan every keyword
against one paper. -/
def topicPaperStep (keywords : List (List Char)) (topics : List (List Char))
    (paper : ExtractedPaper) : List (List Char) :=
  keywords.foldl (topicStep paper) topics

/-- The topic-accumulation loop of `get_hot_topics`, parametrised by the
keyword list exactly as the source's local `keywords` variable: for each
paper, append each matching keyword not yet recorded. -/
def hotTopicsScan (keywords : List (List Char)) (papers : List ExtractedPaper) :
    List (List Char) :=
  papers.foldl (topicPaperStep keywords) []

/-- Python `', '.join`. -/
def joinCommaSep : List (List Char) → List Char
  | [] => []
  | [t] => t
  | t :: rest => t ++ (", ").data ++ joinCommaSep rest

/-- `get_hot_topics` with an explicit keyword list. -/
def get_hot_topics_with (keywords : List (List Char)) (papers : List ExtractedPaper) :
    List Char :=
  let topics := hotTopicsScan keywords papers
  if topics.isEmpty then ("综合领域").data else joinCommaSep topics

/-- `NewsletterGenerator.get_hot_topics`. -/
def get_hot_topics (papers : List ExtractedPaper) : List Char :=
  get_hot_topics_with topicKeywords papers

/-! ## Template rendering

The Jinja2 markdown template of `NewsletterGenerator.template` is
rendered with default settings: expression tags are substituted, block
tags are removed, and all surrounding newlines are preserved. -/

/-- The template context built by `generate_newsletter`. -/
structure TemplateData where
  date : List Char
  total_papers : Nat
  hot_topics : List Char
  papers : List ExtractedPaper
  wordcloud_path : Option (List Char)
  trend_path : Option (List Char)
  audio_path : List Char
deriving DecidableEq

/-- Decimal rendering of an integer, as Jinja renders `total_papers`. -/
def natToChars (n : Nat) : List Char := (toString n).data

/-- One iteration of the template's paper loop, `loop.index = i`. -/
def renderPaperSection (i : Nat) (p : ExtractedPaper) : List Char :=
  ("\n### ").data ++ natToChars i ++ (". ").data ++ p.title ++
  ("\n\n**原文标题：** ").data ++ p.original_title ++
  ("\n\n**摘要：**\n").data ++ p.summary ++
  ("\n\n**论文链接：** [HuggingFace](").data ++ p.paper_url ++
  (") | [arXiv](").data ++ p.arxiv_url ++ (")\n\n").data ++
  (if p.code_url.isEmpty then []
   else ("\n**代码链接：** [GitHub](").data ++ p.code_url ++ (")\n").data) ++
  ("\n\n---\n").data

/-- The template's paper loop, `loop.index` starting from `i`. -/
def renderPaperSections (i : Nat) : List ExtractedPaper → List Char
  | [] => []
  | p :: rest => renderPaperSection i p ++ renderPaperSections (i + 1) rest

/-- The rendered markdown newsletter: `Template(self.template).render(...)`.
The trailer sections referencing the wordcloud image, the trend image and
the audio narration are literal template text present on every run; the
`wordcloud_path` and `trend_path` context entries are never referenced by
the template. -/
def renderTemplate (d : TemplateData) : List Char :=
  ("\n# <img src=\"https://huggingface.co/datasets/huggingface/brand-assets/resolve/main/hf-logo.png\" width=\"30\"/> Hugging Face ").data ++
  d.date ++
  (" 论文日报\n\n## 📊 今日论文统计\n- 总论文数：").data ++ natToChars d.total_papers ++
  ("\n- 热门领域：").data ++ d.hot_topics ++
  ("\n\n## 📝 论文详情\n\n").data ++
  renderPaperSections 1 d.papers ++
  ("\n\n## 🔍 关键词云图\n![关键词云图](../images/keywords_wordcloud.png)\n\n## 📈 近期论文趋势\n![论文趋势](../images/daily_papers.png)\n\n## 🎙️ 语音播报\n- [收听今日论文解读](../").data ++
  d.audio_path ++
  (")\n\n## 📱 订阅渠道\n- GitHub: [hf-daily-paper-newsletter-chinese](https://github.com/2404589803/hf-daily-paper-newsletter-chinese)\n").data

/-- The fixed HTML page shell of `NewsletterGenerator.html_template`,
with the date injected into the page title and the converted markdown
into the container div (braces of the stylesheet written as \x7b/\x7d). -/
def htmlShell (content date : List Char) : List Char :=
  ("<!DOCTYPE html>\n<html lang=\"zh-CN\">\n<head>\n    <meta charset=\"UTF-8\">\n    <meta name=\"viewport\" content=\"width=device-width, initial-scale=1.0\">\n    <title>Hugging Face 论文日报 - ").data ++
  date ++
  ("</title>\n    <style>\n        * \x7b\n            margin: 0;\n            padding: 0;\n            box-sizing: border-box;\n        \x7d\n        \n        body \x7b\n            font-family: -apple-system, BlinkMacSystemFont, 'Segoe UI', 'PingFang SC', 'Hiragino Sans GB', 'Microsoft YaHei', sans-serif;\n            line-height: 1.6;\n            color: #333;\n            background-color: #f5f5f5;\n            padding: 20px;\n        \x7d\n        \n        .container \x7b\n            max-width: 900px;\n            margin: 0 auto;\n            background-color: white;\n            padding: 40px;\n            border-radius: 8px;\n            box-shadow: 0 2px 8px rgba(0,0,0,0.1);\n        \x7d\n        \n        h1 \x7b\n            color: #2c3e50;\n            border-bottom: 3px solid #3498db;\n            padding-bottom: 10px;\n            margin-bottom: 30px;\n            font-size: 28px;\n        \x7d\n        \n        h1 img \x7b\n            vertical-align: middle;\n            margin-right: 10px;\n        \x7d\n        \n        h2 \x7b\n            color: #34495e;\n            margin-top: 40px;\n            margin-bottom: 20px;\n            font-size: 24px;\n            border-left: 4px solid #3498db;\n            padding-left: 15px;\n        \x7d\n        \n        h3 \x7b\n            color: #2c3e50;\n            margin-top: 30px;\n            margin-bottom: 15px;\n            font-size: 20px;\n        \x7d\n        \n        p \x7b\n            margin-bottom: 15px;\n            text-align: justify;\n        \x7d\n        \n        ul \x7b\n            margin-left: 20px;\n            margin-bottom: 20px;\n        \x7d\n        \n        li \x7b\n            margin-bottom: 8px;\n        \x7d\n        \n        a \x7b\n            color: #3498db;\n            text-decoration: none;\n        \x7d\n        \n        a:hover \x7b\n            text-decoration: underline;\n        \x7d\n        \n        strong \x7b\n            color: #2c3e50;\n            font-weight: 600;\n        \x7d\n        \n        hr \x7b\n            border: none;\n            border-top: 1px solid #e0e0e0;\n            margin: 30px 0;\n        \x7d\n        \n        /* 关键修复:限制图片宽度 */\n        img \x7b\n            max-width: 100%;\n            height: auto;\n            display: block;\n            margin: 20px auto;\n            border-radius: 4px;\n            box-shadow: 0 2px 4px rgba(0,0,0,0.1);\n        \x7d\n        \n        /* 确保图片容器也有宽度限制 */\n        p img \x7b\n            max-width: 100%;\n        \x7d\n        \n        /* 论文详情区域样式 */\n        .paper-section \x7b\n            background-color: #f9f9f9;\n            padding: 20px;\n            border-radius: 6px;\n            margin-bottom: 20px;\n        \x7d\n        \n        /* 统计信息样式 */\n        .stats \x7b\n            background-color: #e8f4f8;\n            padding: 15px;\n            border-radius: 6px;\n            margin-bottom: 20px;\n        \x7d\n        \n        /* 响应式设计 */\n        @media (max-width: 768px) \x7b\n            .container \x7b\n                padding: 20px;\n            \x7d\n            \n            h1 \x7b\n                font-size: 24px;\n            \x7d\n            \n            h2 \x7b\n                font-size: 20px;\n            \x7d\n            \n            h3 \x7b\n                font-size: 18px;\n            \x7d\n        \x7d\n    </style>\n</head>\n<body>\n    <div class=\"container\">\n        ").data ++
  content ++
  ("\n    </div>\n</body>\n</html>\n").data

/-- `NewsletterGenerator.generate_html`, parametric in the external
markdown-to-HTML converter. `mdToHtml` stands for the third-party
`markdown.markdown` function, which is outside this repository; the
claims hold for every converter. -/
def generate_html (mdToHtml : List Char → List Char)
    (markdown_content date_str : List Char) : List Char :=
  htmlShell (mdToHtml markdown_content) date_str

/-! ## Run orchestrator -/

/-- The parsed top-level value of the input JSON file: either a list of
records or some other JSON value (which fails the `isinstance` check). -/
inductive JsonTop where
  | arr (records : List PaperData)
  | nonList
deriving DecidableEq

/-- The ambient inputs of one run: the dated input JSON file (absent or
parsed) and the existence of `stats/stats_report.json`. -/
structure RunInput where
  inputFile : Option JsonTop
  statsFileExists : Bool
deriving DecidableEq

/-- The outcome of one run: the boolean the function returns, and the
contents written to the dated markdown and HTML output files (`none`
when the run wrote no file). -/
structure RunResult where
  success : Bool
  mdFile : Option (List Char)
  htmlFile : Option (List Char)
deriving DecidableEq

/-- The failure outcome: `False` returned, no files written. -/
def failedRun : RunResult :=
  { success := false, mdFile := none, htmlFile := none }

/-- `NewsletterGenerator.generate_newsletter` for an explicit date
string, parametric in the external markdown converter: checks the input
file, parses it, extracts every record, probes the stats file to build
the template context, renders the markdown, converts and wraps it as
HTML, and writes both outputs. -/
def generate_newsletter (mdToHtml : List Char → List Char) (inp : RunInput)
    (date_str : List Char) : RunResult :=
  match inp.inputFile with
  | none => failedRun
  | some JsonTop.nonList => failedRun
  | some (JsonTop.arr papers_data) =>
    if papers_data.isEmpty then failedRun
    else
      let papers := papers_data.map extract_paper_info
      if papers.isEmpty then failedRun
      else
        let template_data : TemplateData :=
          if !inp.statsFileExists then
            { date := date_str
              total_papers := papers.length
              hot_topics := get_hot_topics papers
              papers := papers
              wordcloud_path := none
              trend_path := none
              audio_path := ("audio/").data ++ date_str ++ ("_daily_papers.mp3").data }
          else
            { date := date_str
              total_papers := papers.length
              hot_topics := get_hot_topics papers
              papers := papers
              wordcloud_path := some (("images/keywords_wordcloud.png").data)
              trend_path := some (("images/daily_papers.png").data)
              audio_path := ("audio/").data ++ date_str ++ ("_daily_papers.mp3").data }
        let newsletter_md := renderTemplate template_data
        let newsletter_html := generate_html mdToHtml newsletter_md date_str
        { success := true, mdFile := some newsletter_md, htmlFile := some newsletter_html }

/-! ## Statement helpers and sample inputs -/

/-- Whether a text begins with the summary label and a colon, i.e.
whether the anchored summary pattern can begin at this position. -/
def startsWithSumMarker : List Char → Bool
  | a :: b :: c :: _ => decide (a = '摘') && decide (b = '要') && isColon c
  | _ => false

/-- A translation text laid out as a title line followed by a summary
line, in the well-formed `label: value` shape of the specification:
`标题<colon> X`, newline, `摘要<colon> Y`. -/
def wellFormedLayout (c1 c2 : Char) (X Y : List Char) : List Char :=
  '标' :: '题' :: c1 :: ' ' :: (X ++ '\n' :: '摘' :: '要' :: c2 :: ' ' :: Y)

/-- A concrete valid input record. -/
def samplePaper : PaperData :=
  { title := ("Sample Paper").data
    url := ("https://huggingface.co/papers/1").data
    arxiv_url := ("https://arxiv.org/abs/1").data
    translation := ("标题：示例\n摘要：这是测试。").data
    code := [] }

/-- A run whose input file holds one valid record and whose stats file is
absent. -/
def sampleInput : RunInput :=
  { inputFile := some (JsonTop.arr [samplePaper]), statsFileExists := false }

/-- A concrete date string. -/
def sampleDate : List Char := ("2024-01-01").data

/-- A run whose dated input JSON file does not exist. -/
def missingInput : RunInput := { inputFile := none, statsFileExists := false }

/-- A run whose input file parses to a non-list JSON value. -/
def nonListInput : RunInput := { inputFile := some JsonTop.nonList, statsFileExists := true }

/-- A run whose input file parses to an empty array. -/
def emptyArrInput : RunInput := { inputFile := some (JsonTop.arr []), statsFileExists := false }

/-- A concrete extracted paper mentioning the Vision keyword only. -/
def visionPaper : ExtractedPaper :=
  { title := ("A vision study").data, original_title := [], summary := []
    paper_url := [], arxiv_url := [], code_url := [] }

/-- A concrete extracted paper mentioning the LLM keyword. -/
def llmPaper : ExtractedPaper :=
  { title := ("Scaling llm agents").data, original_title := [], summary := []
    paper_url := [], arxiv_url := [], code_url := [] }

/-- A concrete extracted paper matching no topic keyword. -/
def quantumPaper : ExtractedPaper :=
  { title := ("量子计算进展").data, original_title := [], summary := ("新方法").data
    paper_url := [], arxiv_url := [], code_url := [] }

/-! ## Basic lemmas -/

theorem some_orElse_eq {α : Type} (a : α) (y : Option α) : (some a <|> y) = some a := rfl

theorem none_orElse_eq {α : Type} (y : Option α) : (none <|> y) = y := rfl

theorem isColon_iff {c : Char} : isColon c = true ↔ c = ':' ∨ c = '：' := by
  simp [isColon]

theorem ws_ne_nl {c : Char} (h : isPyWs c = false) : (c != '\n') = true := by
  rcases eq_or_ne c '\n' with rfl | hne
  · simp [isPyWs] at h
  · simpa using hne

theorem dropWhile_head_false {p : Char → Bool} :
    ∀ (l : List Char) {c : Char} {t : List Char}, l.dropWhile p = c :: t → p c = false
  | [], _, _, h => by simp at h
  | a :: l, c, t, h => by
      rw [List.dropWhile_cons] at h
      by_cases ha : p a
      · rw [if_pos ha] at h
        exact dropWhile_head_false l h
      · rw [if_neg ha] at h
        cases h
        simpa using ha

theorem dropWhile_idem (p : Char → Bool) (l : List Char) :
    (l.dropWhile p).dropWhile p = l.dropWhile p := by
  cases h : l.dropWhile p with
  | nil => rfl
  | cons c t =>
    rw [List.dropWhile_cons, if_neg]
    simp [dropWhile_head_false l h]

theorem mem_of_mem_dropWhile {p : Char → Bool} {l : List Char} {a : Char}
    (h : a ∈ l.dropWhile p) : a ∈ l :=
  (List.dropWhile_sublist p).subset h

theorem pyStrip_nil : pyStrip [] = [] := rfl

theorem pyStrip_dropWhile (l : List Char) : pyStrip (l.dropWhile isPyWs) = pyStrip l := by
  simp [pyStrip, dropWhile_idem]

theorem pyStrip_cons_ws {w : Char} (hw : isPyWs w = true) (l : List Char) :
    pyStrip (w :: l) = pyStrip l := by
  simp [pyStrip, List.dropWhile_cons, hw]

theorem pyStrip_eq_nil_iff (l : List Char) :
    pyStrip l = [] ↔ ∀ c ∈ l, isPyWs c = true := by
  constructor
  · intro h c hc
    have h2 : (l.dropWhile isPyWs).reverse.dropWhile isPyWs = [] := by
      have h' := congrArg List.reverse h
      simpa [pyStrip] using h'
    have h3 : ∀ d ∈ l.dropWhile isPyWs, isPyWs d = true := by
      intro d hd
      exact List.dropWhile_eq_nil_iff.mp h2 d (List.mem_reverse.mpr hd)
    have hsplit := List.takeWhile_append_dropWhile (p := isPyWs) (l := l)
    rw [← hsplit] at hc
    rcases List.mem_append.mp hc with h4 | h4
    · exact List.mem_takeWhile_imp h4
    · exact h3 c h4
  · intro h
    have h1 : l.dropWhile isPyWs = [] :=
      List.dropWhile_eq_nil_iff.mpr (fun c hc => h c hc)
    simp [pyStrip, h1]

theorem dropWhile_eq_strip_append (l : List Char) :
    ∃ t, l.dropWhile isPyWs = pyStrip l ++ t ∧ ∀ c ∈ t, isPyWs c = true := by
  refine ⟨((l.dropWhile isPyWs).reverse.takeWhile isPyWs).reverse, ?_, ?_⟩
  · have key := List.takeWhile_append_dropWhile (p := isPyWs)
      (l := (l.dropWhile isPyWs).reverse)
    calc l.dropWhile isPyWs = (l.dropWhile isPyWs).reverse.reverse := by simp
      _ = (((l.dropWhile isPyWs).reverse.takeWhile isPyWs)
            ++ ((l.dropWhile isPyWs).reverse.dropWhile isPyWs)).reverse := by rw [key]
      _ = pyStrip l ++ ((l.dropWhile isPyWs).reverse.takeWhile isPyWs).reverse := by
            rw [List.reverse_append]; rfl
  · intro c hc
    exact List.mem_takeWhile_imp (List.mem_reverse.mp hc)

theorem pyStrip_head_not_ws {l : List Char} {c : Char} {t : List Char}
    (h : pyStrip l = c :: t) : isPyWs c = false := by
  obtain ⟨t', ht', _⟩ := dropWhile_eq_strip_append l
  rw [h] at ht'
  exact dropWhile_head_false l ht'

theorem pyStrip_eq_append_last {l : List Char} (h : pyStrip l ≠ []) :
    ∃ ini e, pyStrip l = ini ++ [e] ∧ isPyWs e = false := by
  cases hm : (l.dropWhile isPyWs).reverse.dropWhile isPyWs with
  | nil => exact absurd (by simp [pyStrip, hm]) h
  | cons c t =>
    exact ⟨t.reverse, c, by simp [pyStrip, hm], dropWhile_head_false _ hm⟩

theorem dropWhile_of_head_false {p : Char → Bool} {c : Char} {t : List Char}
    (h : p c = false) : (c :: t).dropWhile p = c :: t := by
  simp [List.dropWhile_cons, h]

theorem pyStrip_of_clean {m : List Char} (h1 : m.dropWhile isPyWs = m)
    (h2 : m.reverse.dropWhile isPyWs = m.reverse) : pyStrip m = m := by
  show ((m.dropWhile isPyWs).reverse.dropWhile isPyWs).reverse = m
  rw [h1, h2, List.reverse_reverse]

theorem pyStrip_idem (l : List Char) : pyStrip (pyStrip l) = pyStrip l := by
  by_cases h : pyStrip l = []
  · rw [h]; rfl
  · obtain ⟨ini, e, he, hwse⟩ := pyStrip_eq_append_last h
    have h1 : (pyStrip l).dropWhile isPyWs = pyStrip l := by
      cases hh : pyStrip l with
      | nil => rfl
      | cons c t => exact dropWhile_of_head_false (pyStrip_head_not_ws hh)
    have h2 : (pyStrip l).reverse.dropWhile isPyWs = (pyStrip l).reverse := by
      rw [he, List.reverse_append]
      simpa using dropWhile_of_head_false (t := ini.reverse) hwse
    exact pyStrip_of_clean h1 h2

theorem pyStrip_single_nonws {e : Char} (he : isPyWs e = false) : pyStrip [e] = [e] := by
  simp [pyStrip, List.dropWhile_cons, he]

theorem pyStrip_pair_ws_right {e t0 : Char} (he : isPyWs e = false)
    (ht : isPyWs t0 = true) : pyStrip [e, t0] = [e] := by
  simp [pyStrip, List.dropWhile_cons, he, ht]

theorem pyStrip_pair_ws_left {w e : Char} (hw : isPyWs w = true)
    (he : isPyWs e = false) : pyStrip [w, e] = [e] := by
  simp [pyStrip, List.dropWhile_cons, hw, he]

theorem pyStrip_pair_ws_both {u v : Char} (hu : isPyWs u = true)
    (hv : isPyWs v = true) : pyStrip [u, v] = [] := by
  simp [pyStrip, List.dropWhile_cons, hu, hv]

theorem mem_pyStrip {l : List Char} {a : Char} (h : a ∈ pyStrip l) : a ∈ l := by
  unfold pyStrip at h
  rw [List.mem_reverse] at h
  exact mem_of_mem_dropWhile (List.mem_reverse.mp (mem_of_mem_dropWhile h))

/-! ## Combinator lemmas -/

theorem starCap_cons_pos {α : Type} (p : Char → Bool) {c : Char} (hc : p c = true)
    (rest : List Char) (k : List Char → List Char → Option α) :
    starCap p (c :: rest) k =
      ((starCap p rest (fun cap r => k (c :: cap) r)) <|> k [] (c :: rest)) := by
  simp [starCap, hc]

theorem starCap_cons_neg {α : Type} (p : Char → Bool) {c : Char} (hc : p c = false)
    (rest : List Char) (k : List Char → List Char → Option α) :
    starCap p (c :: rest) k = k [] (c :: rest) := by
  simp [starCap, hc]

theorem plusCapGreedy_cons_pos {α : Type} (p : Char → Bool) {c : Char} (hc : p c = true)
    (rest : List Char) (k : List Char → List Char → Option α) :
    plusCapGreedy p (c :: rest) k = starCap p rest (fun cap r => k (c :: cap) r) := by
  simp [plusCapGreedy, hc]

theorem lazyPlusCap_cons_pos {α : Type} (p : Char → Bool) {c : Char} (hc : p c = true)
    (rest : List Char) (k : List Char → List Char → Option α) :
    lazyPlusCap p (c :: rest) k =
      ((k [c] rest) <|> lazyPlusCap p rest (fun cap r => k (c :: cap) r)) := by
  simp [lazyPlusCap, hc]

theorem starCap_ws_step {α : Type} (p : Char → Bool) (g : List Char → Option α)
    {w : Char} (hw : p w = true) (t : List Char) :
    starCap p (w :: t) (fun _ r => g r) =
      ((starCap p t (fun _ r => g r)) <|> g (w :: t)) :=
  starCap_cons_pos p hw t (fun _ r => g r)

theorem starCap_stop {α : Type} (p : Char → Bool) (g : List Char → Option α)
    {c : Char} (hc : p c = false) (t : List Char) :
    starCap p (c :: t) (fun _ r => g r) = g (c :: t) :=
  starCap_cons_neg p hc t (fun _ r => g r)

theorem starCap_skip_ws {α : Type} (p : Char → Bool) (g : List Char → Option α) {v : α} :
    ∀ (W s : List Char), (∀ c ∈ W, p c = true) →
      starCap p s (fun _ r => g r) = some v →
      starCap p (W ++ s) (fun _ r => g r) = some v
  | [], _, _, hs => hs
  | w :: W, s, hW, hs => by
      rw [List.cons_append, starCap_ws_step p g (hW w (by simp)) (W ++ s),
        starCap_skip_ws p g W s (fun c hc => hW c (by simp [hc])) hs]
      rfl

theorem starCap_of_run {α : Type} (p : Char → Bool) :
    ∀ (l r : List Char) (k : List Char → List Char → Option α) (v : α),
      (∀ a ∈ l, p a = true) → (∀ c t, r = c :: t → p c = false) →
      k l r = some v → starCap p (l ++ r) k = some v
  | [], r, k, v, _, hr, hk => by
      cases r with
      | nil => simpa [starCap] using hk
      | cons c t =>
          rw [List.nil_append, starCap_cons_neg p (hr c t rfl) t k]
          exact hk
  | a :: l, r, k, v, hl, hr, hk => by
      rw [List.cons_append, starCap_cons_pos p (hl a (by simp)) (l ++ r) k,
        starCap_of_run p l r (fun cap rr => k (a :: cap) rr) v
          (fun b hb => hl b (by simp [hb])) hr hk]
      rfl

theorem plusCapGreedy_run {α : Type} (p : Char → Bool) (c : Char) (cap' r : List Char)
    (k : List Char → List Char → Option α) (v : α)
    (hc : p c = true) (hcap : ∀ a ∈ cap', p a = true)
    (hr : ∀ d t, r = d :: t → p d = false)
    (hk : k (c :: cap') r = some v) :
    plusCapGreedy p (c :: (cap' ++ r)) k = some v := by
  rw [plusCapGreedy_cons_pos p hc (cap' ++ r) k]
  exact starCap_of_run p cap' r (fun cp rr => k (c :: cp) rr) v hcap hr hk

theorem lazyPlusCap_first {α : Type} (p : Char → Bool) {c : Char} (rest : List Char)
    (k : List Char → List Char → Option α) {v : α}
    (hc : p c = true) (hk : k [c] rest = some v) :
    lazyPlusCap p (c :: rest) k = some v := by
  rw [lazyPlusCap_cons_pos p hc rest k, hk]
  rfl

theorem lazyPlusCap_exact {α : Type} (p : Char → Bool) :
    ∀ (cap r : List Char) (k : List Char → List Char → Option α) (v : α),
      cap ≠ [] → (∀ a ∈ cap, p a = true) →
      (∀ pre mid, cap = pre ++ mid → pre ≠ [] → mid ≠ [] → k pre (mid ++ r) = none) →
      k cap r = some v → lazyPlusCap p (cap ++ r) k = some v
  | [], _, _, _, hne, _, _, _ => absurd rfl hne
  | [c], r, k, v, _, hall, _, hk =>
      lazyPlusCap_first p r k (hall c (by simp)) hk
  | c :: c2 :: cap, r, k, v, _, hall, hfail, hk => by
      rw [List.cons_append, lazyPlusCap_cons_pos p (hall c (by simp)) ((c2 :: cap) ++ r) k,
        hfail [c] (c2 :: cap) rfl (by simp) (by simp), none_orElse_eq]
      exact lazyPlusCap_exact p (c2 :: cap) r (fun cp rr => k (c :: cp) rr) v (by simp)
        (fun a ha => hall a (by simp [ha]))
        (fun pre mid hpm hpre hmid => hfail (c :: pre) mid (by rw [List.cons_append, ← hpm])
          (by simp) hmid)
        hk

/-! ## Lookahead lemmas -/

theorem wsStarThen_nil (f : List Char → Bool) : wsStarThen f [] = f [] := rfl

theorem wsStarThen_cons (f : List Char → Bool) (c : Char) (rest : List Char) :
    wsStarThen f (c :: rest) = ((isPyWs c && wsStarThen f rest) || f (c :: rest)) := rfl

theorem sumLookLabel_ne_nl {c : Char} (t : List Char) (h : c ≠ '\n') :
    sumLookLabel (c :: t) = false := by
  unfold sumLookLabel
  split
  · next heq =>
      exact absurd (List.head_eq_of_cons_eq heq.symm).symm h
  · rfl

theorem summaryLook_nil : summaryLook [] = true := rfl

theorem summaryLook_allws : ∀ (s : List Char), (∀ c ∈ s, isPyWs c = true) →
    summaryLook s = true
  | [], _ => rfl
  | c :: rest, h => by
      have hrec := summaryLook_allws rest (fun d hd => h d (by simp [hd]))
      unfold summaryLook at hrec ⊢
      rw [wsStarThen_cons, h c (by simp), hrec]
      rfl

theorem summaryLook_false : ∀ (s : List Char), '\n' ∉ s →
    (∃ c ∈ s, isPyWs c = false) → summaryLook s = false
  | [], _, hex => by
      rcases hex with ⟨c, hc, _⟩
      simp at hc
  | c :: rest, hnl, hex => by
      have hcnl : c ≠ '\n' := fun h => hnl (h ▸ List.mem_cons_self c rest)
      have hlab : sumLookLabel (c :: rest) = false := sumLookLabel_ne_nl rest hcnl
      unfold summaryLook
      rw [wsStarThen_cons]
      by_cases hcw : isPyWs c = true
      · have hex' : ∃ d ∈ rest, isPyWs d = false := by
          rcases hex with ⟨d, hd, hdw⟩
          rcases List.mem_cons.mp hd with rfl | hd'
          · exact absurd hcw (by simp [hdw])
          · exact ⟨d, hd', hdw⟩
        have hrec := summaryLook_false rest (fun h => hnl (List.mem_cons_of_mem c h)) hex'
        unfold summaryLook at hrec
        simp [hcw, hrec, hlab]
      · rw [Bool.not_eq_true] at hcw
        simp [hcw, hlab]

/-! ## Marker and scan lemmas -/

theorem hwMarker_eq : hwMarker = ['摘', '要', ':'] := by decide

theorem fwMarker_eq : fwMarker = ['摘', '要', '：'] := by decide

theorem reSearchSummary_cons (c : Char) (rest : List Char) :
    reSearchSummary (c :: rest) = (summaryMatchAt (c :: rest) <|> reSearchSummary rest) := rfl

theorem reSearchTitle_cons (c : Char) (rest : List Char) :
    reSearchTitle (c :: rest) = (titleMatchAt (c :: rest) <|> reSearchTitle rest) := rfl

theorem startsMarker_false_of_head {a : Char} (t : List Char) (h : a ≠ '摘') :
    startsWithSumMarker (a :: t) = false := by
  cases t with
  | nil => rfl
  | cons b u =>
    cases u with
    | nil => rfl
    | cons c w => simp [startsWithSumMarker, h]

theorem summaryMatchAt_eq_none : ∀ (s : List Char), startsWithSumMarker s = false →
    summaryMatchAt s = none
  | [], _ => rfl
  | [_], _ => rfl
  | [_, _], _ => rfl
  | a :: b :: c :: rest, h => by
      rw [show summaryMatchAt (a :: b :: c :: rest)
          = (if a = '摘' ∧ b = '要' ∧ isColon c = true then
              starCap isPyWs rest fun _ r1 => sumTail r1 else none) from rfl]
      rw [if_neg]
      rintro ⟨rfl, rfl, h3⟩
      simp [startsWithSumMarker, h3] at h

theorem summaryMatchAt_marker {c : Char} (hc : isColon c = true) (rest : List Char) :
    summaryMatchAt ('摘' :: '要' :: c :: rest) =
      starCap isPyWs rest (fun _ r1 => sumTail r1) := by
  rw [show summaryMatchAt ('摘' :: '要' :: c :: rest)
      = (if '摘' = '摘' ∧ '要' = '要' ∧ isColon c = true then
          starCap isPyWs rest fun _ r1 => sumTail r1 else none) from rfl]
  rw [if_pos ⟨rfl, rfl, hc⟩]

theorem containsSub_of_isPrefix {pat l : List Char} (h : pat.isPrefixOf l = true) :
    containsSub pat l = true := by
  cases l with
  | nil =>
    cases pat with
    | nil => rfl
    | cons a t => simp [List.isPrefixOf] at h
  | cons c rest =>
    unfold containsSub
    rw [h]
    rfl

theorem containsSub_tail_false {pat : List Char} {c : Char} {l : List Char}
    (h : containsSub pat (c :: l) = false) : containsSub pat l = false := by
  unfold containsSub at h
  exact (Bool.or_eq_false_iff.mp h).2

theorem startsMarker_false_within {x : Char} {Xr : List Char} (r0 : List Char)
    (h1 : containsSub hwMarker (x :: Xr) = false)
    (h2 : containsSub fwMarker (x :: Xr) = false) :
    startsWithSumMarker (x :: (Xr ++ '\n' :: r0)) = false := by
  cases Xr with
  | nil =>
    cases r0 with
    | nil => rfl
    | cons z w => simp [startsWithSumMarker]
  | cons y Xr2 =>
    cases Xr2 with
    | nil => simp [startsWithSumMarker, isColon]
    | cons z Xr3 =>
      by_contra hcon
      rw [Bool.not_eq_false] at hcon
      have hx : (x = '摘' ∧ y = '要') ∧ isColon z = true := by
        simpa [startsWithSumMarker] using hcon
      obtain ⟨⟨rfl, rfl⟩, hz⟩ := hx
      rcases isColon_iff.mp hz with rfl | rfl
      · have hpre : hwMarker.isPrefixOf ('摘' :: '要' :: ':' :: Xr3) = true := by
          rw [hwMarker_eq]; simp [List.isPrefixOf]
        have hc := containsSub_of_isPrefix hpre
        rw [h1] at hc
        exact Bool.noConfusion hc
      · have hpre : fwMarker.isPrefixOf ('摘' :: '要' :: '：' :: Xr3) = true := by
          rw [fwMarker_eq]; simp [List.isPrefixOf]
        have hc := containsSub_of_isPrefix hpre
        rw [h2] at hc
        exact Bool.noConfusion hc

theorem reSearchSummary_skip (r0 : List Char) :
    ∀ (X : List Char), containsSub hwMarker X = false → containsSub fwMarker X = false →
      reSearchSummary (X ++ '\n' :: r0) = reSearchSummary ('\n' :: r0)
  | [], _, _ => rfl
  | x :: X, h1, h2 => by
      rw [List.cons_append, reSearchSummary_cons x (X ++ '\n' :: r0),
        summaryMatchAt_eq_none _ (startsMarker_false_within r0 h1 h2),
        none_orElse_eq,
        reSearchSummary_skip r0 X (containsSub_tail_false h1) (containsSub_tail_false h2)]

theorem reSearchSummary_pre {c1 : Char} (hc1 : isColon c1 = true) (rest : List Char) :
    reSearchSummary ('标' :: '题' :: c1 :: ' ' :: rest) = reSearchSummary rest := by
  have hne : c1 ≠ '摘' := by
    rcases isColon_iff.mp hc1 with rfl | rfl <;> decide
  rw [reSearchSummary_cons,
    summaryMatchAt_eq_none _ (startsMarker_false_of_head _ (by decide)), none_orElse_eq,
    reSearchSummary_cons,
    summaryMatchAt_eq_none _ (startsMarker_false_of_head _ (by decide)), none_orElse_eq,
    reSearchSummary_cons,
    summaryMatchAt_eq_none _ (startsMarker_false_of_head _ hne), none_orElse_eq,
    reSearchSummary_cons,
    summaryMatchAt_eq_none _ (startsMarker_false_of_head _ (by decide)), none_orElse_eq]

theorem reSearchSummary_nl (r : List Char) :
    reSearchSummary ('\n' :: r) = reSearchSummary r := by
  rw [reSearchSummary_cons,
    summaryMatchAt_eq_none _ (startsMarker_false_of_head _ (by decide)), none_orElse_eq]

/-! ## Behaviour of the summary pattern at the marker -/

theorem mem_of_mem_takeWhile {p : Char → Bool} {l : List Char} {a : Char}
    (h : a ∈ l.takeWhile p) : a ∈ l :=
  (List.takeWhile_sublist (l := l) (p := p)).subset h

theorem sumTail_nil : sumTail [] = none := rfl

theorem sumTail_cons {d : Char} (r2 : List Char) (hd : (d != '\n') = true) :
    sumTail (d :: r2) = lazyPlusCap (fun _ => true) r2 (fun cap r3 =>
      if summaryLook r3 then some (d :: cap) else none) := by
  simp [sumTail, hd]

theorem sumTail_single {d : Char} (hd : (d != '\n') = true) : sumTail [d] = none := by
  simp [sumTail, hd, lazyPlusCap]

theorem sumTail_pair {u : Char} (v : Char) (hu : (u != '\n') = true) :
    sumTail [u, v] = some [u, v] := by
  rw [sumTail_cons [v] hu, lazyPlusCap_cons_pos (fun _ => true) rfl [] _]
  simp [summaryLook_nil]

theorem starCap_nil_ig {α : Type} (p : Char → Bool) (g : List Char → Option α) :
    starCap p [] (fun _ r => g r) = g [] := rfl

theorem starCap_allws_pair :
    ∀ (W : List Char), 2 ≤ W.length → (∀ c ∈ W, isPyWs c = true) → '\n' ∉ W →
      ∃ u v, isPyWs u = true ∧ isPyWs v = true ∧
        starCap isPyWs W (fun _ r => sumTail r) = some [u, v]
  | [], h2, _, _ => by simp at h2
  | [_], h2, _, _ => by simp at h2
  | [u, v], _, hws, hnl => by
      have hu : (u != '\n') = true := by
        have h : u ≠ '\n' := fun h => hnl (by simp [h])
        simpa using h
      have hv : (v != '\n') = true := by
        have h : v ≠ '\n' := fun h => hnl (by simp [h])
        simpa using h
      refine ⟨u, v, hws u (by simp), hws v (by simp), ?_⟩
      rw [show ([u, v] : List Char) = u :: [v] from rfl,
        starCap_ws_step isPyWs _ (hws u (by simp)) [v],
        starCap_ws_step isPyWs _ (hws v (by simp [List.mem_cons])) [],
        starCap_nil_ig, sumTail_nil, sumTail_single hv, sumTail_pair v hu]
      rfl
  | u :: v :: w :: W, _, hws, hnl => by
      obtain ⟨a, b, ha, hb, hres⟩ := starCap_allws_pair (v :: w :: W) (by simp)
        (fun c hc => hws c (List.mem_cons_of_mem u hc))
        (fun h => hnl (List.mem_cons_of_mem u h))
      refine ⟨a, b, ha, hb, ?_⟩
      rw [show u :: v :: w :: W = u :: (v :: w :: W) from rfl,
        starCap_ws_step isPyWs _ (hws u (by simp)) (v :: w :: W), hres]
      rfl

theorem starCap_ws_single_end {e0 : Char} (he : isPyWs e0 = false) :
    ∀ (W : List Char), W ≠ [] → (∀ c ∈ W, isPyWs c = true) → '\n' ∉ W →
      ∃ w, isPyWs w = true ∧
        starCap isPyWs (W ++ [e0]) (fun _ r => sumTail r) = some [w, e0]
  | [], hne, _, _ => absurd rfl hne
  | [w], _, hws, hnl => by
      have hw : (w != '\n') = true := by
        have h : w ≠ '\n' := fun h => hnl (by simp [h])
        simpa using h
      have he' : (e0 != '\n') = true := ws_ne_nl he
      refine ⟨w, hws w (by simp), ?_⟩
      rw [show ([w] ++ [e0] : List Char) = w :: [e0] from rfl,
        starCap_ws_step isPyWs _ (hws w (by simp)) [e0],
        starCap_stop isPyWs _ he [],
        sumTail_single he', sumTail_pair e0 hw]
      rfl
  | w :: w2 :: W, _, hws, hnl => by
      obtain ⟨w', hw', hres⟩ := starCap_ws_single_end he (w2 :: W) (by simp)
        (fun c hc => hws c (List.mem_cons_of_mem w hc))
        (fun h => hnl (List.mem_cons_of_mem w h))
      refine ⟨w', hw', ?_⟩
      rw [show (w :: w2 :: W) ++ [e0] = w :: ((w2 :: W) ++ [e0]) from rfl,
        starCap_ws_step isPyWs _ (hws w (by simp)) ((w2 :: W) ++ [e0]), hres]
      rfl

theorem sumTail_core (e0 : Char) (capL Yt ini : List Char) (e : Char)
    (he0 : isPyWs e0 = false)
    (hlast : e0 :: capL = ini ++ [e]) (hews : isPyWs e = false)
    (hcapnl : '\n' ∉ e0 :: capL) (hYtws : ∀ c ∈ Yt, isPyWs c = true)
    (hYtnl : '\n' ∉ Yt) (hcapne : capL ≠ []) :
    sumTail ((e0 :: capL) ++ Yt) = some (e0 :: capL) := by
  have he0' : (e0 != '\n') = true := ws_ne_nl he0
  rw [List.cons_append, sumTail_cons (capL ++ Yt) he0']
  refine lazyPlusCap_exact (fun _ => true) capL Yt _ (e0 :: capL) hcapne (by simp) ?_ ?_
  · intro pre mid hpm hpre hmid
    have hnl' : '\n' ∉ mid ++ Yt := by
      intro hmem
      rcases List.mem_append.mp hmem with hm | hm
      · exact hcapnl (List.mem_cons_of_mem e0 (hpm ▸ List.mem_append.mpr (Or.inr hm)))
      · exact hYtnl hm
    rcases List.eq_nil_or_concat mid with rfl | ⟨mid0, b, rfl⟩
    · exact absurd rfl hmid
    · rw [List.concat_eq_append] at hpm hnl'
      have hb : b = e := by
        have h1 : ((e0 :: pre) ++ mid0) ++ [b] = ini ++ [e] := by
          calc ((e0 :: pre) ++ mid0) ++ [b]
              = e0 :: (pre ++ (mid0 ++ [b])) := by simp
            _ = e0 :: capL := by rw [← hpm]
            _ = ini ++ [e] := hlast
        have h2 := congrArg List.getLast? h1
        rw [List.getLast?_concat, List.getLast?_concat] at h2
        exact Option.some.inj h2
      have hlook : summaryLook (mid0 ++ b :: Yt) = false := by
        have h' : (mid0 ++ [b]) ++ Yt = mid0 ++ b :: Yt := by simp
        rw [← h']
        exact summaryLook_false _ (h' ▸ hnl') ⟨b, by simp, hb ▸ hews⟩
      simp [hlook]
  · simp [summaryLook_allws Yt hYtws]

theorem summaryMatch_marker_cases {c2 : Char} (Y : List Char)
    (hc2 : isColon c2 = true) (hYnl : '\n' ∉ Y) :
    (Y = [] ∧ reSearchSummary ('摘' :: '要' :: c2 :: ' ' :: Y) = none) ∨
    (∃ v, reSearchSummary ('摘' :: '要' :: c2 :: ' ' :: Y) = some v ∧
      pyStrip v = pyStrip Y) := by
  by_cases hY : Y = []
  · subst hY
    rcases isColon_iff.mp hc2 with rfl | rfl
    · exact Or.inl ⟨rfl, by decide⟩
    · exact Or.inl ⟨rfl, by decide⟩
  · right
    have hsplit := List.takeWhile_append_dropWhile (p := isPyWs) (l := Y)
    have hWws : ∀ c ∈ ' ' :: Y.takeWhile isPyWs, isPyWs c = true := by
      intro c hc
      rcases List.mem_cons.mp hc with rfl | hc'
      · decide
      · exact List.mem_takeWhile_imp hc'
    have hYsplit : ' ' :: Y = (' ' :: Y.takeWhile isPyWs) ++ Y.dropWhile isPyWs := by
      rw [List.cons_append, hsplit]
    cases hD : Y.dropWhile isPyWs with
    | nil =>
        have hall : ∀ c ∈ Y, isPyWs c = true := List.dropWhile_eq_nil_iff.mp hD
        have hlen : 2 ≤ (' ' :: Y).length := by
          cases Y with
          | nil => exact absurd rfl hY
          | cons a t => simp
        have hnl2 : '\n' ∉ (' ' :: Y) := by
          intro h
          rcases List.mem_cons.mp h with h | h
          · exact absurd h (by decide)
          · exact hYnl h
        obtain ⟨u, v, hu, hv, hres⟩ := starCap_allws_pair (' ' :: Y) hlen
          (by
            intro c hc
            rcases List.mem_cons.mp hc with rfl | hc'
            · decide
            · exact hall c hc') hnl2
        refine ⟨[u, v], ?_, ?_⟩
        · rw [reSearchSummary_cons, summaryMatchAt_marker hc2 (' ' :: Y), hres]
          rfl
        · rw [pyStrip_pair_ws_both hu hv, Eq.comm, pyStrip_eq_nil_iff]
          exact hall
    | cons d0 Yd' =>
        obtain ⟨Yt, hYt, hYtws⟩ := dropWhile_eq_strip_append Y
        have hYcne : pyStrip Y ≠ [] := by
          intro h0
          rw [h0, List.nil_append] at hYt
          have hd0 : isPyWs d0 = false := dropWhile_head_false Y hD
          have hd0m : d0 ∈ Yt := by rw [← hYt, hD]; simp
          rw [hYtws d0 hd0m] at hd0
          exact Bool.noConfusion hd0
        obtain ⟨ini, e, hlast, hews⟩ := pyStrip_eq_append_last hYcne
        have hYtnl : '\n' ∉ Yt := by
          intro h
          apply hYnl
          apply mem_of_mem_dropWhile (p := isPyWs)
          rw [hYt]
          exact List.mem_append.mpr (Or.inr h)
        have hYcnl : '\n' ∉ pyStrip Y := fun h => hYnl (mem_pyStrip h)
        obtain ⟨e0, capL, hYc⟩ : ∃ e0 capL, pyStrip Y = e0 :: capL := by
          cases h : pyStrip Y with
          | nil => exact absurd h hYcne
          | cons a t => exact ⟨a, t, rfl⟩
        have he0 : isPyWs e0 = false := pyStrip_head_not_ws hYc
        by_cases hcap : capL = []
        · subst hcap
          by_cases hYtc : Yt = []
          · subst hYtc
            have hYd : Y.dropWhile isPyWs = [e0] := by
              rw [hYt, hYc]
              rfl
            have hWnl : '\n' ∉ (' ' :: Y.takeWhile isPyWs) := by
              intro h
              rcases List.mem_cons.mp h with h | h
              · exact absurd h (by decide)
              · exact hYnl (mem_of_mem_takeWhile h)
            obtain ⟨w, hw, hres⟩ := starCap_ws_single_end he0
              (' ' :: Y.takeWhile isPyWs) (by simp) hWws hWnl
            refine ⟨[w, e0], ?_, ?_⟩
            · rw [reSearchSummary_cons, summaryMatchAt_marker hc2 (' ' :: Y), hYsplit,
                hYd, hres]
              rfl
            · rw [pyStrip_pair_ws_left hw he0, hYc]
          · obtain ⟨t0, Yt', rfl⟩ : ∃ t0 Yt', Yt = t0 :: Yt' := by
              cases Yt with
              | nil => exact absurd rfl hYtc
              | cons a t => exact ⟨a, t, rfl⟩
            have ht0 : isPyWs t0 = true := hYtws t0 (by simp)
            have hYt'ws : ∀ c ∈ Yt', isPyWs c = true := fun c hc => hYtws c (by simp [hc])
            have hprime : starCap isPyWs (Y.dropWhile isPyWs) (fun _ r => sumTail r)
                = some [e0, t0] := by
              rw [hYt, hYc,
                show (([e0] : List Char) ++ (t0 :: Yt')) = e0 :: t0 :: Yt' from rfl,
                starCap_stop isPyWs _ he0 (t0 :: Yt'),
                sumTail_cons (t0 :: Yt') (ws_ne_nl he0),
                lazyPlusCap_cons_pos (fun _ => true) rfl Yt' _]
              simp [summaryLook_allws Yt' hYt'ws, some_orElse_eq]
            refine ⟨[e0, t0], ?_, ?_⟩
            · rw [reSearchSummary_cons, summaryMatchAt_marker hc2 (' ' :: Y), hYsplit,
                starCap_skip_ws isPyWs sumTail (' ' :: Y.takeWhile isPyWs)
                  (Y.dropWhile isPyWs) hWws hprime]
              rfl
            · rw [pyStrip_pair_ws_right he0 ht0, hYc]
        · have hcore : sumTail ((e0 :: capL) ++ Yt) = some (e0 :: capL) := by
            exact sumTail_core e0 capL Yt ini e he0 (hYc ▸ hlast) hews
              (hYc ▸ hYcnl) hYtws hYtnl hcap
          have hprime : starCap isPyWs (Y.dropWhile isPyWs) (fun _ r => sumTail r)
              = some (e0 :: capL) := by
            rw [hYt, hYc, List.cons_append, starCap_stop isPyWs _ he0 (capL ++ Yt),
              ← List.cons_append, hcore]
          refine ⟨e0 :: capL, ?_, ?_⟩
          · rw [reSearchSummary_cons, summaryMatchAt_marker hc2 (' ' :: Y), hYsplit,
              starCap_skip_ws isPyWs sumTail (' ' :: Y.takeWhile isPyWs)
                (Y.dropWhile isPyWs) hWws hprime]
            rfl
          · have hid := pyStrip_idem Y
            rw [hYc] at hid
            exact hid.trans hYc.symm

/-! ## Behaviour of the title pattern on the well-formed layout -/

theorem titleLookahead_marker {c : Char} (hc : isColon c = true) (w : List Char) :
    titleLookahead ('\n' :: '摘' :: '要' :: c :: w) = true := by
  have h2 : isPyWs '摘' = false := by decide
  have h3 : titleLookNl ('\n' :: '摘' :: '要' :: c :: w) = true := by
    have hred : titleLookNl ('\n' :: '摘' :: '要' :: c :: w)
        = wsStarThen (fun u =>
            match u with
            | '摘' :: '要' :: c :: _ => isColon c
            | _ => false) ('摘' :: '要' :: c :: w) := rfl
    rw [hred, wsStarThen_cons]
    simp [h2, hc]
  unfold titleLookahead
  rw [wsStarThen_cons]
  simp [h3]

theorem titleMatchAt_wf {c1 c2 : Char} {X : List Char} (Y : List Char)
    (hc1 : isColon c1 = true) (hc2 : isColon c2 = true)
    (hXnl : '\n' ∉ X) (hXs : pyStrip X ≠ []) :
    titleMatchAt (wellFormedLayout c1 c2 X Y) = some (X.dropWhile isPyWs) := by
  rw [show titleMatchAt (wellFormedLayout c1 c2 X Y)
      = (if '标' = '标' ∧ '题' = '题' ∧ isColon c1 = true then
          starCap isPyWs (' ' :: (X ++ '\n' :: '摘' :: '要' :: c2 :: ' ' :: Y))
            (fun _ r1 => titleTail r1) else none) from rfl,
    if_pos ⟨rfl, rfl, hc1⟩]
  obtain ⟨e, Xc', hXceq⟩ : ∃ e Xc', X.dropWhile isPyWs = e :: Xc' := by
    cases h : X.dropWhile isPyWs with
    | nil => exact absurd ((pyStrip_eq_nil_iff X).mpr (List.dropWhile_eq_nil_iff.mp h)) hXs
    | cons a t => exact ⟨a, t, rfl⟩
  have he : isPyWs e = false := dropWhile_head_false X hXceq
  have hsplit2 : ' ' :: (X ++ '\n' :: '摘' :: '要' :: c2 :: ' ' :: Y)
      = (' ' :: X.takeWhile isPyWs)
        ++ (X.dropWhile isPyWs ++ '\n' :: '摘' :: '要' :: c2 :: ' ' :: Y) := by
    rw [List.cons_append, ← List.append_assoc, List.takeWhile_append_dropWhile]
  rw [hsplit2]
  apply starCap_skip_ws isPyWs titleTail
  · intro c hc
    rcases List.mem_cons.mp hc with rfl | hc'
    · decide
    · exact List.mem_takeWhile_imp hc'
  · rw [hXceq, List.cons_append, starCap_stop isPyWs _ he _]
    unfold titleTail
    apply plusCapGreedy_run (fun ch => ch != '\n') e Xc'
      ('\n' :: '摘' :: '要' :: c2 :: ' ' :: Y) _ (e :: Xc')
    · exact ws_ne_nl he
    · intro a ha
      have hmem : a ∈ X := mem_of_mem_dropWhile (hXceq ▸ List.mem_cons_of_mem e ha)
      have hne : a ≠ '\n' := fun h => hXnl (h ▸ hmem)
      simpa using hne
    · intro d t hdt
      cases hdt
      decide
    · show (if titleLookahead ('\n' :: '摘' :: '要' :: c2 :: ' ' :: Y) = true then
          some (e :: Xc') else none) = some (e :: Xc')
      rw [titleLookahead_marker hc2 (' ' :: Y), if_pos rfl]

theorem reSearchTitle_wf {c1 c2 : Char} {X : List Char} (Y : List Char)
    (hc1 : isColon c1 = true) (hc2 : isColon c2 = true)
    (hXnl : '\n' ∉ X) (hXs : pyStrip X ≠ []) :
    reSearchTitle (wellFormedLayout c1 c2 X Y) = some (X.dropWhile isPyWs) := by
  have h := titleMatchAt_wf Y hc1 hc2 hXnl hXs
  unfold wellFormedLayout at h ⊢
  rw [reSearchTitle_cons, h]
  rfl

/-! ## The literal-marker fallback on the well-formed layout -/

theorem splitOnceAfter_cons_no {pat : List Char} {c : Char} {l : List Char}
    (h : pat.isPrefixOf (c :: l) = false) :
    splitOnceAfter pat (c :: l) = splitOnceAfter pat l := by
  simp [splitOnceAfter, h]

theorem fw_not_prefix_of_head {a : Char} (l : List Char) (h : a ≠ '摘') :
    fwMarker.isPrefixOf (a :: l) = false := by
  rw [fwMarker_eq]
  cases hfw : List.isPrefixOf ['摘', '要', '：'] (a :: l) with
  | false => rfl
  | true =>
      simp [List.isPrefixOf] at hfw
      exact absurd hfw.1.symm h

theorem startsMarker_of_fw_begins : ∀ (s : List Char), fwMarker.isPrefixOf s = true →
    startsWithSumMarker s = true
  | [], h => by rw [fwMarker_eq] at h; simp [List.isPrefixOf] at h
  | [a], h => by rw [fwMarker_eq] at h; simp [List.isPrefixOf] at h
  | [a, b], h => by rw [fwMarker_eq] at h; simp [List.isPrefixOf] at h
  | a :: b :: c :: rest, h => by
      rw [fwMarker_eq] at h
      simp [List.isPrefixOf] at h
      obtain ⟨ha, hb, hcc⟩ := h
      subst ha
      subst hb
      subst hcc
      simp [startsWithSumMarker, isColon]

theorem splitOnceAfter_skipX (r0 : List Char) :
    ∀ (X : List Char), containsSub hwMarker X = false → containsSub fwMarker X = false →
      splitOnceAfter fwMarker (X ++ '\n' :: r0) = splitOnceAfter fwMarker ('\n' :: r0)
  | [], _, _ => rfl
  | x :: X, h1, h2 => by
      have hsm := startsMarker_false_within r0 h1 h2
      have hnp : fwMarker.isPrefixOf (x :: (X ++ '\n' :: r0)) = false := by
        cases hfw : fwMarker.isPrefixOf (x :: (X ++ '\n' :: r0)) with
        | false => rfl
        | true =>
            rw [startsMarker_of_fw_begins _ hfw] at hsm
            exact Bool.noConfusion hsm
      rw [List.cons_append, splitOnceAfter_cons_no hnp,
        splitOnceAfter_skipX r0 X (containsSub_tail_false h1) (containsSub_tail_false h2)]

theorem splitOnceAfter_pre {c1 : Char} (hc1 : isColon c1 = true) (rest : List Char) :
    splitOnceAfter fwMarker ('标' :: '题' :: c1 :: ' ' :: rest)
      = splitOnceAfter fwMarker rest := by
  have hne : c1 ≠ '摘' := by rcases isColon_iff.mp hc1 with rfl | rfl <;> decide
  rw [splitOnceAfter_cons_no (fw_not_prefix_of_head _ (by decide)),
    splitOnceAfter_cons_no (fw_not_prefix_of_head _ (by decide)),
    splitOnceAfter_cons_no (fw_not_prefix_of_head _ hne),
    splitOnceAfter_cons_no (fw_not_prefix_of_head _ (by decide))]

theorem splitOnceAfter_at_fw (rest : List Char) :
    splitOnceAfter fwMarker ('摘' :: '要' :: '：' :: rest) = some rest := by
  have hpre : fwMarker.isPrefixOf ('摘' :: '要' :: '：' :: rest) = true := by
    rw [fwMarker_eq]
    simp [List.isPrefixOf]
  simp [splitOnceAfter, hpre, fwMarker_eq]

theorem splitOnceAfter_none_no_zhai : ∀ (l : List Char), (∀ c ∈ l, c ≠ '摘') →
    splitOnceAfter fwMarker l = none
  | [], _ => by decide
  | c :: l, h => by
      rw [splitOnceAfter_cons_no (fw_not_prefix_of_head _ (h c (by simp)))]
      exact splitOnceAfter_none_no_zhai l (fun d hd => h d (by simp [hd]))

theorem splitOnceAfter_wf_fw {c1 : Char} (hc1 : isColon c1 = true) (X Y : List Char)
    (h2 : containsSub fwMarker X = false) (h1 : containsSub hwMarker X = false) :
    splitOnceAfter fwMarker (wellFormedLayout c1 '：' X Y) = some (' ' :: Y) := by
  unfold wellFormedLayout
  rw [splitOnceAfter_pre hc1, splitOnceAfter_skipX ('摘' :: '要' :: '：' :: ' ' :: Y) X h1 h2,
    splitOnceAfter_cons_no (fw_not_prefix_of_head _ (by decide)),
    splitOnceAfter_at_fw]

theorem splitOnceAfter_wf_hw {c1 : Char} (hc1 : isColon c1 = true) (X Y : List Char)
    (h1 : containsSub hwMarker X = false) (h2 : containsSub fwMarker X = false)
    (hYws : ∀ c ∈ Y, isPyWs c = true) :
    splitOnceAfter fwMarker (wellFormedLayout c1 ':' X Y) = none := by
  have hcc : ('：' == ':') = false := by decide
  have hfw3 : fwMarker.isPrefixOf ('摘' :: '要' :: ':' :: ' ' :: Y) = false := by
    rw [fwMarker_eq]
    simp [List.isPrefixOf, hcc]
  unfold wellFormedLayout
  rw [splitOnceAfter_pre hc1, splitOnceAfter_skipX ('摘' :: '要' :: ':' :: ' ' :: Y) X h1 h2,
    splitOnceAfter_cons_no (fw_not_prefix_of_head _ (by decide)),
    splitOnceAfter_cons_no hfw3]
  apply splitOnceAfter_none_no_zhai
  intro c hc
  rcases List.mem_cons.mp hc with rfl | hc'
  · decide
  rcases List.mem_cons.mp hc' with rfl | hc''
  · decide
  rcases List.mem_cons.mp hc'' with rfl | hc3
  · decide
  · intro heq
    have hw := hYws c hc3
    rw [heq] at hw
    exact absurd hw (by decide)

theorem containsSub_eq_isSome (pat : List Char) :
    ∀ (l : List Char), containsSub pat l = (splitOnceAfter pat l).isSome
  | [] => by
      unfold containsSub splitOnceAfter
      cases hp : pat.isEmpty <;> simp [hp]
  | c :: l => by
      unfold containsSub splitOnceAfter
      cases hp : pat.isPrefixOf (c :: l) with
      | true => simp [hp]
      | false => simp [hp, containsSub_eq_isSome pat l]

/-! ## Accessor equations of the extractor -/

theorem extract_title_eq {t u a cd tr : List Char} {cap : List Char}
    (h : reSearchTitle tr = some cap) :
    (extract_paper_info
      { title := t, url := u, arxiv_url := a, translation := tr, code := cd }).title
      = pyStrip cap := by
  have hbody : (extract_paper_info
      { title := t, url := u, arxiv_url := a, translation := tr, code := cd }).title
      = pyStrip ((match reSearchTitle tr with
          | none => reSearchFallback tr
          | some m => some m).getD t) := rfl
  rw [hbody, h]
  rfl

theorem extract_summary_eq {t u a cd tr : List Char} :
    (extract_paper_info
      { title := t, url := u, arxiv_url := a, translation := tr, code := cd }).summary
      = (if (pyStrip ((reSearchSummary tr).getD [])).isEmpty
            && containsSub fwMarker tr then
          pyStrip ((splitOnceAfter fwMarker tr).getD [])
        else pyStrip ((reSearchSummary tr).getD [])) := rfl

theorem isEmpty_false_of_ne {α : Type} {s0 : List α} (h : s0 ≠ []) :
    s0.isEmpty = false := by
  cases s0 with
  | nil => exact absurd rfl h
  | cons a t => rfl

theorem summary_fallback_ws {c1 c2 : Char} (X Y : List Char)
    (hc1 : isColon c1 = true) (hc2 : isColon c2 = true)
    (hX1 : containsSub hwMarker X = false) (hX2 : containsSub fwMarker X = false)
    (hYws : ∀ c ∈ Y, isPyWs c = true) :
    (if ([] : List Char).isEmpty && containsSub fwMarker (wellFormedLayout c1 c2 X Y) then
        pyStrip ((splitOnceAfter fwMarker (wellFormedLayout c1 c2 X Y)).getD [])
      else []) = [] := by
  rcases isColon_iff.mp hc2 with rfl | rfl
  · have hsp := splitOnceAfter_wf_hw hc1 X Y hX1 hX2 hYws
    have hcf : containsSub fwMarker (wellFormedLayout c1 ':' X Y) = false := by
      rw [containsSub_eq_isSome fwMarker _, hsp]
      rfl
    simp [hcf]
  · have hsp := splitOnceAfter_wf_fw hc1 X Y hX2 hX1
    have hct : containsSub fwMarker (wellFormedLayout c1 '：' X Y) = true := by
      rw [containsSub_eq_isSome fwMarker _, hsp]
      rfl
    simp [hct, hsp, pyStrip_cons_ws (by decide : isPyWs ' ' = true) Y,
      (pyStrip_eq_nil_iff Y).mpr hYws]

/-! ## Claim theorems -/

/-- Claim C2: for every translation text laid out as a title line
`标题: X` followed by a summary line `摘要: Y` -- the well-formed
`label: value` layout, formalised as: either colon variant, a space after
each label colon, `X` and `Y` free of newlines, the title value not all
whitespace, and the title value containing no embedded summary label
(which would make the layout hold two summary labels) --
`extract_paper_info` returns the title `X.strip()` and the summary
`Y.strip()`. -/
theorem C2_well_formed_extraction
    (c1 c2 : Char) (X Y t0 u0 a0 cd : List Char)
    (hc1 : isColon c1 = true) (hc2 : isColon c2 = true)
    (hXnl : '\n' ∉ X) (hYnl : '\n' ∉ Y)
    (hXs : pyStrip X ≠ [])
    (hX1 : containsSub hwMarker X = false) (hX2 : containsSub fwMarker X = false) :
    (extract_paper_info
        { title := t0, url := u0, arxiv_url := a0,
          translation := wellFormedLayout c1 c2 X Y, code := cd }).title = pyStrip X ∧
    (extract_paper_info
        { title := t0, url := u0, arxiv_url := a0,
          translation := wellFormedLayout c1 c2 X Y, code := cd }).summary = pyStrip Y := by
  have hT : reSearchTitle (wellFormedLayout c1 c2 X Y) = some (X.dropWhile isPyWs) :=
    reSearchTitle_wf Y hc1 hc2 hXnl hXs
  have hscan : reSearchSummary (wellFormedLayout c1 c2 X Y)
      = reSearchSummary ('摘' :: '要' :: c2 :: ' ' :: Y) := by
    unfold wellFormedLayout
    rw [reSearchSummary_pre hc1,
      reSearchSummary_skip ('摘' :: '要' :: c2 :: ' ' :: Y) X hX1 hX2,
      reSearchSummary_nl]
  constructor
  · rw [extract_title_eq hT, pyStrip_dropWhile]
  · rw [extract_summary_eq]
    rcases summaryMatch_marker_cases Y hc2 hYnl with ⟨hYnil, hnone⟩ | ⟨v, hsome, hpv⟩
    · subst hYnil
      have hv : reSearchSummary (wellFormedLayout c1 c2 X []) = none := hscan.trans hnone
      rw [hv,
        show (pyStrip ((none : Option (List Char)).getD [])) = ([] : List Char) from rfl]
      exact summary_fallback_ws X [] hc1 hc2 hX1 hX2 (by simp)
    · have hv : reSearchSummary (wellFormedLayout c1 c2 X Y) = some v := hscan.trans hsome
      rw [hv, show ((some v).getD ([] : List Char)) = v from rfl]
      by_cases hYe : pyStrip Y = []
      · have hv0 : pyStrip v = [] := hpv.trans hYe
        rw [hv0, hYe]
        exact summary_fallback_ws X Y hc1 hc2 hX1 hX2 ((pyStrip_eq_nil_iff Y).mp hYe)
      · have hvne : pyStrip v ≠ [] := fun h => hYe (hpv.symm.trans h)
        rw [isEmpty_false_of_ne hvne]
        simpa using hpv

/-- Witness for C2: a concrete well-formed layout with a halfwidth title
colon, a fullwidth summary colon and whitespace around the summary
value. -/
theorem C2_witness :
    (extract_paper_info
        { title := ("t0").data, url := ("u0").data, arxiv_url := ("a0").data,
          translation := wellFormedLayout ':' '：' (("AB").data) ((" C D ").data),
          code := [] }).title = pyStrip (("AB").data) ∧
    (extract_paper_info
        { title := ("t0").data, url := ("u0").data, arxiv_url := ("a0").data,
          translation := wellFormedLayout ':' '：' (("AB").data) ((" C D ").data),
          code := [] }).summary = pyStrip ((" C D ").data) :=
  C2_well_formed_extraction ':' '：' (("AB").data) ((" C D ").data) (("t0").data)
    (("u0").data) (("a0").data) [] (by decide) (by decide) (by decide) (by decide)
    (by decide) (by decide) (by decide)

/-- Claim C3: when the summary regex pattern does not match the
translation, the summary is everything after the first occurrence of the
literal fullwidth marker `摘要：` (whitespace-trimmed) whenever that
marker occurs anywhere in the translation, and the empty string when the
marker is absent. -/
theorem C3_literal_summary_fallback (t u a cd tr : List Char)
    (hm : reSearchSummary tr = none) :
    (extract_paper_info
      { title := t, url := u, arxiv_url := a, translation := tr, code := cd }).summary
      = (match splitOnceAfter fwMarker tr with
         | some rest => pyStrip rest
         | none => []) := by
  rw [extract_summary_eq, hm,
    show (pyStrip ((none : Option (List Char)).getD [])) = ([] : List Char) from rfl]
  cases hsp : splitOnceAfter fwMarker tr with
  | some rest =>
      have hct : containsSub fwMarker tr = true := by
        rw [containsSub_eq_isSome fwMarker tr, hsp]
        rfl
      simp [hct, hsp]
  | none =>
      have hcf : containsSub fwMarker tr = false := by
        rw [containsSub_eq_isSome fwMarker tr, hsp]
        rfl
      simp [hcf]

/-- Witness for C3: a translation with no regex match and the literal
marker present; the extractor takes everything after the marker. -/
theorem C3_witness :
    (extract_paper_info
      { title := [], url := [], arxiv_url := [], translation := ("摘要：").data,
        code := [] }).summary
      = (match splitOnceAfter fwMarker (("摘要：").data) with
         | some rest => pyStrip rest
         | none => []) :=
  C3_literal_summary_fallback [] [] [] [] (("摘要：").data) (by decide)

/-- Claim C4: the extractor resolves the title through three ordered
tiers: the primary title pattern; if it fails, the fallback pattern of a
leading line immediately before a line starting with the summary marker;
and if that also fails, the record's raw title field -- the result
whitespace-trimmed in every tier. -/
theorem C4_title_three_tiers (p : PaperData) :
    (∀ cap, reSearchTitle p.translation = some cap →
      (extract_paper_info p).title = pyStrip cap) ∧
    (reSearchTitle p.translation = none →
      ∀ cap, reSearchFallback p.translation = some cap →
        (extract_paper_info p).title = pyStrip cap) ∧
    (reSearchTitle p.translation = none → reSearchFallback p.translation = none →
      (extract_paper_info p).title = pyStrip p.title) := by
  have hbody : (extract_paper_info p).title
      = pyStrip ((match reSearchTitle p.translation with
          | none => reSearchFallback p.translation
          | some m => some m).getD p.title) := rfl
  refine ⟨?_, ?_, ?_⟩
  · intro cap h
    rw [hbody, h]
    rfl
  · intro h0 cap h
    rw [hbody, h0, h]
    rfl
  · intro h0 h1
    rw [hbody, h0, h1]
    rfl

/-- Witness for C4: the first tier resolves the title on a concrete
record. -/
theorem C4_witness :
    (extract_paper_info
      { title := ("Raw").data, url := [], arxiv_url := [],
        translation := ("标题: A\n摘要: Bc").data, code := [] }).title
      = pyStrip (("A").data) :=
  (C4_title_three_tiers
    { title := ("Raw").data, url := [], arxiv_url := [],
      translation := ("标题: A\n摘要: Bc").data, code := [] }).1
    (("A").data) (by decide)

theorem topicStep_no_match {p : ExtractedPaper} {ts : List (List Char)}
    {kw : List Char} (hc : containsSub (lowerL kw) (paperContent p) = false) :
    topicStep p ts kw = ts := by
  simp [topicStep, hc]

theorem topicStep_new {p : ExtractedPaper} {ts : List (List Char)} {kw : List Char}
    (hc : containsSub (lowerL kw) (paperContent p) = true)
    (hm : ts.contains kw = false) : topicStep p ts kw = ts ++ [kw] := by
  unfold topicStep
  rw [hc, hm]
  simp

theorem topicStep_seen {p : ExtractedPaper} {ts : List (List Char)} {kw : List Char}
    (hm : ts.contains kw = true) : topicStep p ts kw = ts := by
  unfold topicStep
  rw [hm]
  simp

/-- Claim C5: the topic scan records each matched keyword at most once
and preserves first-seen order across papers, not keyword-list order:
with keyword list `[A, B]`, a first paper containing `B` (and not `A`)
and a second paper containing `A` produce `"B, A"`; matching is
case-insensitive containment over the concatenation of the paper's title
and summary. -/
theorem C5_first_seen_order (A B : List Char) (p1 p2 : ExtractedPaper)
    (h1B : containsSub (lowerL B) (paperContent p1) = true)
    (h1A : containsSub (lowerL A) (paperContent p1) = false)
    (h2A : containsSub (lowerL A) (paperContent p2) = true) :
    get_hot_topics_with [A, B] [p1, p2] = B ++ (", ").data ++ A := by
  have hAB : A ≠ B := by
    intro h
    rw [h, h1B] at h1A
    exact Bool.noConfusion h1A
  have hBA : ([B] : List (List Char)).contains A = false := by
    simp [List.contains, hAB]
  have hBB : ([B, A] : List (List Char)).contains B = true := by
    simp [List.contains]
  have hscan : hotTopicsScan [A, B] [p1, p2] = [B, A] := by
    show List.foldl (topicPaperStep [A, B]) [] [p1, p2] = [B, A]
    rw [List.foldl_cons, List.foldl_cons, List.foldl_nil]
    rw [show topicPaperStep [A, B] [] p1 = [B] from by
      show List.foldl (topicStep p1) [] [A, B] = [B]
      rw [List.foldl_cons, topicStep_no_match h1A, List.foldl_cons,
        topicStep_new h1B (show (([] : List (List Char)).contains B) = false from rfl),
        List.foldl_nil]
      rfl]
    show List.foldl (topicStep p2) [B] [A, B] = [B, A]
    rw [List.foldl_cons, topicStep_new h2A hBA,
      show ([B] ++ [A] : List (List Char)) = [B, A] from rfl,
      List.foldl_cons, topicStep_seen hBB, List.foldl_nil]
  show (if (hotTopicsScan [A, B] [p1, p2]).isEmpty then ("综合领域").data
    else joinCommaSep (hotTopicsScan [A, B] [p1, p2])) = B ++ (", ").data ++ A
  rw [hscan]
  show joinCommaSep [B, A] = B ++ (", ").data ++ A
  rw [show joinCommaSep [B, A] = B ++ (", ").data ++ joinCommaSep [A] from rfl]
  rfl

/-- Witness for C5 on concrete papers and two real keywords. -/
theorem C5_witness :
    get_hot_topics_with [("LLM").data, ("Vision").data] [visionPaper, llmPaper]
      = ("Vision").data ++ (", ").data ++ ("LLM").data :=
  C5_first_seen_order (("LLM").data) (("Vision").data) visionPaper llmPaper
    (by decide) (by decide) (by decide)

theorem topicPaperStep_id (p : ExtractedPaper) :
    ∀ (kws : List (List Char)),
      (∀ kw ∈ kws, containsSub (lowerL kw) (paperContent p) = false) →
      ∀ ts, kws.foldl (topicStep p) ts = ts
  | [], _, _ => rfl
  | k :: ks, hkw, ts => by
      rw [List.foldl_cons, topicStep_no_match (hkw k (by simp))]
      exact topicPaperStep_id p ks (fun kw h2 => hkw kw (by simp [h2])) ts

theorem hotTopicsScan_nil_of_none :
    ∀ (papers : List ExtractedPaper),
      (∀ p ∈ papers, ∀ kw ∈ topicKeywords,
        containsSub (lowerL kw) (paperContent p) = false) →
      hotTopicsScan topicKeywords papers = []
  | [], _ => rfl
  | p :: ps, h => by
      show List.foldl (topicPaperStep topicKeywords) [] (p :: ps) = []
      rw [List.foldl_cons,
        show topicPaperStep topicKeywords [] p = [] from
          topicPaperStep_id p topicKeywords (h p (by simp)) []]
      exact hotTopicsScan_nil_of_none ps (fun q hq => h q (by simp [hq]))

/-- Claim C6: when no keyword of the fixed topic list occurs
case-insensitively in any paper's title or summary, `get_hot_topics`
returns the default label `综合领域` rather than an empty string. -/
theorem C6_default_topic (papers : List ExtractedPaper)
    (h : ∀ p ∈ papers, ∀ kw ∈ topicKeywords,
      containsSub (lowerL kw) (paperContent p) = false) :
    get_hot_topics papers = ("综合领域").data := by
  show (if (hotTopicsScan topicKeywords papers).isEmpty then ("综合领域").data
    else joinCommaSep (hotTopicsScan topicKeywords papers)) = ("综合领域").data
  rw [hotTopicsScan_nil_of_none papers h]
  rfl

/-- Witness for C6 on a concrete keyword-free paper. -/
theorem C6_witness : get_hot_topics [quantumPaper] = ("综合领域").data :=
  C6_default_topic [quantumPaper] (by decide)

/-- Claim C7: when the dated input JSON file does not exist,
`generate_newsletter` returns the failure signal and writes no output
files; in the embedding the function is total, reflecting that no
exception propagates (logging is outside this core's contract). -/
theorem C7_missing_input (mdToHtml : List Char → List Char) (inp : RunInput)
    (date_str : List Char) (h : inp.inputFile = none) :
    generate_newsletter mdToHtml inp date_str = failedRun := by
  unfold generate_newsletter
  rw [h]

/-- Witness for C7 on a concrete run with no input file. -/
theorem C7_witness : generate_newsletter id missingInput sampleDate = failedRun :=
  C7_missing_input id missingInput sampleDate rfl

/-- Claim C8: when the parsed top-level JSON value is not a non-empty
list -- a non-list value or an empty array -- `generate_newsletter`
returns the failure signal and writes no output files (the code treats
this as an informational skip; logging is outside this core). -/
theorem C8_empty_or_nonlist (mdToHtml : List Char → List Char) (inp : RunInput)
    (date_str : List Char)
    (h : inp.inputFile = some JsonTop.nonList ∨
      inp.inputFile = some (JsonTop.arr [])) :
    generate_newsletter mdToHtml inp date_str = failedRun := by
  rcases h with h | h
  · unfold generate_newsletter
    rw [h]
  · unfold generate_newsletter
    rw [h]
    rfl

/-- Witness for C8 on a concrete run whose input parses to `[]`. -/
theorem C8_witness : generate_newsletter id emptyArrInput sampleDate = failedRun :=
  C8_empty_or_nonlist id emptyArrInput sampleDate (Or.inr rfl)

/-- Claim C9: `generate_newsletter` is deterministic. With every ambient
input made explicit in the embedding (parsed input-file contents,
stats-file presence, the markdown converter), two runs over equal inputs
and the same explicit date string produce byte-identical markdown and
HTML outputs. -/
theorem C9_deterministic (mdToHtml : List Char → List Char) (inp1 inp2 : RunInput)
    (d1 d2 : List Char) (hinp : inp1 = inp2) (hd : d1 = d2) :
    (generate_newsletter mdToHtml inp1 d1).mdFile
        = (generate_newsletter mdToHtml inp2 d2).mdFile ∧
    (generate_newsletter mdToHtml inp1 d1).htmlFile
        = (generate_newsletter mdToHtml inp2 d2).htmlFile := by
  subst hinp
  subst hd
  exact ⟨rfl, rfl⟩

/-- Witness for C9 on two identical concrete runs. -/
theorem C9_witness :
    (generate_newsletter id sampleInput sampleDate).mdFile
        = (generate_newsletter id sampleInput sampleDate).mdFile ∧
    (generate_newsletter id sampleInput sampleDate).htmlFile
        = (generate_newsletter id sampleInput sampleDate).htmlFile :=
  C9_deterministic id sampleInput sampleInput sampleDate sampleDate rfl rfl

/-- Claim C10 (implicit): mapping the extractor over a parsed non-empty
record list preserves its length, so the extracted list is non-empty and
the extraction-empty warning branch of `generate_newsletter` is
unreachable once the empty-input check has passed; such runs reach the
success path. -/
theorem C10_extraction_branch_unreachable (mdToHtml : List Char → List Char)
    (inp : RunInput) (date_str : List Char) (l : List PaperData)
    (hin : inp.inputFile = some (JsonTop.arr l)) (hne : l ≠ []) :
    (l.map extract_paper_info).length = l.length ∧
    l.map extract_paper_info ≠ [] ∧
    (generate_newsletter mdToHtml inp date_str).success = true := by
  have hmapne : l.map extract_paper_info ≠ [] := by
    intro h
    exact hne (List.map_eq_nil_iff.mp h)
  refine ⟨List.length_map l extract_paper_info, hmapne, ?_⟩
  unfold generate_newsletter
  rw [hin]
  simp [isEmpty_false_of_ne hne, isEmpty_false_of_ne hmapne]

/-- Witness for C10 on a concrete one-record run. -/
theorem C10_witness :
    (([samplePaper] : List PaperData).map extract_paper_info).length
        = ([samplePaper] : List PaperData).length ∧
    ([samplePaper] : List PaperData).map extract_paper_info ≠ [] ∧
    (generate_newsletter id sampleInput sampleDate).success = true :=
  C10_extraction_branch_unreachable id sampleInput sampleDate [samplePaper] rfl
    (List.cons_ne_nil samplePaper [])

/-- Claim C1 evaluation, at the failing input: with one valid record and
the stats file absent, the run succeeds and writes both outputs, but the
rendered markdown CONTAINS both image asset links. The template text
references `../images/keywords_wordcloud.png` and
`../images/daily_papers.png` unconditionally, although the code builds a
context with `wordcloud_path = None` and `trend_path = None` in this
branch and logs that a simplified template will be used -- the exclusion
described by the specification is the code's own documented intent, and
the template is the slip. -/
theorem C1_assets_always_included :
    (generate_newsletter id sampleInput sampleDate).success = true ∧
    ((generate_newsletter id sampleInput sampleDate).mdFile).isSome = true ∧
    ((generate_newsletter id sampleInput sampleDate).htmlFile).isSome = true ∧
    containsSub (("images/keywords_wordcloud.png").data)
      (((generate_newsletter id sampleInput sampleDate).mdFile).getD []) = true ∧
    containsSub (("images/daily_papers.png").data)
      (((generate_newsletter id sampleInput sampleDate).mdFile).getD []) = true := by
  decide

end HFNews
